import Mathlib

/-!
# A shallow embedding of `src/lib/mutations/NotifyList.js`

`NotifyList` schedules deferred, batched delivery of queued `MutationRecord`s
to their `MutationObserver`s.  The JavaScript runs single-threaded on top of a
FIFO "run later" primitive (`setImmediate`/`setTimeout 0`, wrapped by
`schedule`), so the whole subsystem is modelled as a deterministic state
machine together with a FIFO queue of pending deferred tasks:

* `recordQueue`   — each observer's `observer.recordQueue` (observers are
  identified by natural numbers, records by natural numbers standing for
  object identity, since the source compares records with `===`);
* `notifyList`    — `this.notifyList`, the ordered pending set (duplicates
  allowed, the source only ever pushes);
* `scheduled`     — whether `this.scheduled` is non-null, i.e. a flush has
  been scheduled and its wrapper has not started running yet;
* `tasks`         — the host scheduler's FIFO queue of deferred callbacks;
  `Task.flush` is the wrapper scheduled by `scheduleInvoke`, and
  `Task.deliver round queue observer` is one per-observer delivery scheduled
  by `invokeMutationObservers` (the captured `queue` argument is stored in
  the task, exactly as the source closes over it);
* `counters`      — one `numCallbacks` counter per flush round: the source's
  `numCallbacks` is a fresh local variable of each `invokeMutationObservers`
  call, shared by the delivery closures of that call only, so rounds are
  numbered by `nextRound` and the counter is indexed by round;
* `invocations` / `cleanups` — ghost observation logs (not state of the
  source): each observer-callback call `observer.callback.call(null, queue,
  observer)` appends an `Invocation`, and each call of
  `removeTransientRegisteredObserversForObserver` appends the observer id.

The observers themselves are external collaborators.  Their
`takeRecords()` implementation lives outside `src/` and is modelled from the
spec (§6): it atomically returns the current queue contents and empties the
queue.  What an observer's callback does while running, and what the
transient-registered-observer removal reaches while running, is arbitrary
collaborator code; its only way to affect this subsystem is calling back
into `queueRecord`.  An `Env` records, for each cleanup and each callback
invocation, the list of `queueRecord` calls that collaborator code performs.
Callbacks may additionally raise; by the source's `try … finally`, a raise
changes no scheduler state and only propagates to the host, so it is
tracked separately (`runTasksE`).
-/

namespace NotifyList

/-- One deferred task sitting in the host scheduler's FIFO queue. -/
inductive Task where
  /-- The wrapper scheduled by `scheduleInvoke`
      (`this.scheduled = null; this.invokeMutationObservers();`). -/
  | flush : Task
  /-- One per-observer delivery scheduled by `invokeMutationObservers`,
      closing over the taken `queue`, the observer, and the round whose
      `numCallbacks` counter it shares. -/
  | deliver (round : Nat) (queue : List Nat) (observer : Nat) : Task
  deriving DecidableEq, Repr

/-- Ghost log entry: the observer callback was invoked with this batch,
during the given flush round. -/
structure Invocation where
  round : Nat
  observer : Nat
  batch : List Nat
  deriving DecidableEq, Repr

/-- The complete state of the `NotifyList` subsystem plus the host FIFO
scheduler and the ghost logs.  (The source's constructor also initialises an
unused `this.callbacks = []`; it is dead state and not modelled.) -/
structure NLState where
  recordQueue : Nat → List Nat
  notifyList : List Nat
  scheduled : Bool
  tasks : List Task
  counters : Nat → Nat
  nextRound : Nat
  invocations : List Invocation
  cleanups : List Nat

/-- The freshly constructed `NotifyList`: empty queues, empty list, nothing
scheduled, no tasks pending. -/
def initState : NLState where
  recordQueue := fun _ => []
  notifyList := []
  scheduled := false
  tasks := []
  counters := fun _ => 0
  nextRound := 0
  invocations := []
  cleanups := []

/-- Behaviour of the external collaborators: for each cleanup of an observer
and for each callback invocation, the list of `queueRecord (observer,
record)` calls that the collaborator code performs while running.  The
spec's own cleanup (§6) removes tracking state and performs no enqueues;
that special case is `cleanupEnqueues = fun _ => []`. -/
structure Env where
  cleanupEnqueues : Nat → List (Nat × Nat)
  callbackEnqueues : Nat → List Nat → List (Nat × Nat)

/-- `NotifyList.prototype.scheduleInvoke`: if a flush wrapper is already
scheduled do nothing, otherwise schedule one (append to the host FIFO) and
remember the token in `this.scheduled`. -/
def scheduleInvoke (s : NLState) : NLState :=
  if s.scheduled then s
  else { s with scheduled := true, tasks := s.tasks ++ [Task.flush] }

/-- `NotifyList.prototype.queueRecord`: if the record is identical (`===`)
to the last entry of the observer's queue, return without doing anything;
otherwise push the record, push the observer onto `this.notifyList` and call
`scheduleInvoke`. -/
def queueRecord (s : NLState) (observer record : Nat) : NLState :=
  if (s.recordQueue observer).getLast? = some record then s
  else
    scheduleInvoke
      { s with
        recordQueue := fun o =>
          if o = observer then s.recordQueue observer ++ [record]
          else s.recordQueue o,
        notifyList := s.notifyList ++ [observer] }

/-- Collaborator code running re-entrantly is a sequence of `queueRecord`
calls, performed left to right. -/
def performEnqueues (l : List (Nat × Nat)) (s : NLState) : NLState :=
  l.foldl (fun s p => queueRecord s p.1 p.2) s

/-- `removeTransientRegisteredObserversForObserver`: the loop body
(`registeredObservers.removeTransients`) is external collaborator code
("cleanup", spec §6); the ghost log records the call and the environment
says which `queueRecord` calls the collaborator performs. -/
def removeTransientRegisteredObserversForObserver (env : Env) (s : NLState)
    (observer : Nat) : NLState :=
  performEnqueues (env.cleanupEnqueues observer)
    { s with cleanups := s.cleanups ++ [observer] }

/-- Modelled from the spec: `observer.takeRecords()` (spec §6; the
`MutationObserver` implementation is not under `src/`) atomically returns
the current contents of the observer's record queue and empties it.  The
model empties the queue here; call sites read the queue just before. -/
def takeRecords (s : NLState) (observer : Nat) : NLState :=
  { s with
    recordQueue := fun o => if o = observer then [] else s.recordQueue o }

/-- `NotifyList.prototype.clear`: calls `takeRecords` on every observer on
the list (discarding the result), then empties the list.  `this.scheduled`
is not touched. -/
def clear (s : NLState) : NLState :=
  { s with
    recordQueue := fun o => if o ∈ s.notifyList then [] else s.recordQueue o,
    notifyList := [] }

/-- `observer.takeRecords()` invoked directly by code outside this module
(it is a public operation of the external observer, spec §6). -/
def extTakeRecords (s : NLState) (observer : Nat) : NLState :=
  takeRecords s observer

/-- One iteration of the `for` loop of `invokeMutationObservers`, for the
snapshot entry `ob` of round `rd`: take the observer's records; if the taken
queue is empty, remove the transient registered observers and continue;
otherwise increment the round's `numCallbacks` and schedule an independent
delivery task closing over the taken queue and the observer. -/
def processObserver (env : Env) (rd ob : Nat) (s : NLState) : NLState :=
  let queue := s.recordQueue ob
  let s1 := takeRecords s ob
  if queue = [] then
    removeTransientRegisteredObserversForObserver env s1 ob
  else
    { s1 with
      counters := fun n => if n = rd then s1.counters rd + 1 else s1.counters n,
      tasks := s1.tasks ++ [Task.deliver rd queue ob] }

/-- The `for` loop of `invokeMutationObservers` over the entries of
`this.notifyList` present when the loop starts.  The source iterates
`this.notifyList[0] … this.notifyList[l-1]` with `l` captured before the
loop; since the only mutation re-entrant code can apply to the list is
`push`, those `l` entries are exactly the list as it stood at loop entry,
so the loop is modelled as structural recursion over that snapshot while
the state's own `notifyList` keeps receiving any re-entrant pushes. -/
def flushLoop (env : Env) (rd : Nat) : List Nat → NLState → NLState
  | [], s => s
  | ob :: rest, s => flushLoop env rd rest (processObserver env rd ob s)

/-- `NotifyList.prototype.invokeMutationObservers`: allocate this round's
`numCallbacks` counter (a fresh local of the call), run the loop over the
entries of `this.notifyList` present at loop entry, then execute
`this.notifyList.length = 0`, which empties the list — including any
entries pushed re-entrantly while the loop ran. -/
def invokeMutationObservers (env : Env) (s : NLState) : NLState :=
  let rd := s.nextRound
  let s1 := flushLoop env rd s.notifyList { s with nextRound := rd + 1 }
  { s1 with notifyList := [] }

/-- Ghost step: record that `observer.callback.call(null, queue, observer)`
was invoked for round `rd` with batch `q`. -/
def logInvocation (rd ob : Nat) (q : List Nat) (s : NLState) : NLState :=
  { s with invocations := s.invocations ++ [⟨rd, ob, q⟩] }

/-- The `finally` block of a delivery task of round `rd`: `--numCallbacks;
if (!numCallbacks) this.scheduleInvoke();`.  The decremented shared counter
that the zero test reads is `s.counters rd - 1`. -/
def deliverFinally (rd : Nat) (s : NLState) : NLState :=
  let s4 := { s with
    counters := fun n => if n = rd then s.counters rd - 1 else s.counters n }
  if s.counters rd - 1 = 0 then scheduleInvoke s4 else s4

/-- One scheduled delivery task: `try { removeTransients(observer);
observer.callback.call(null, queue, observer) } finally { --numCallbacks;
if (!numCallbacks) this.scheduleInvoke(); }`.  The callback invocation is
logged, then the `queueRecord` calls the callback performs while running
are applied; the `finally` block runs unconditionally (also when the
callback raises — a raise only propagates to the host afterwards, see
`deliveryError` / `runTasksE`). -/
def runDeliver (env : Env) (rd : Nat) (q : List Nat) (ob : Nat)
    (s : NLState) : NLState :=
  deliverFinally rd
    (performEnqueues (env.callbackEnqueues ob q)
      (logInvocation rd ob q
        (removeTransientRegisteredObserversForObserver env s ob)))

/-- Execute one deferred task.  The flush wrapper first resets
`this.scheduled` to `null`, then runs `invokeMutationObservers`. -/
def execTask (env : Env) : Task → NLState → NLState
  | Task.flush, s => invokeMutationObservers env { s with scheduled := false }
  | Task.deliver rd q ob, s => runDeliver env rd q ob s

/-- One turn of the host's cooperative scheduler: pop the front task (FIFO)
and execute it; do nothing if no task is pending. -/
def runTask (env : Env) (s : NLState) : NLState :=
  match s.tasks with
  | [] => s
  | t :: rest => execTask env t { s with tasks := rest }

/-- `n` turns of the host scheduler. -/
def runTasks (env : Env) : Nat → NLState → NLState
  | 0, s => s
  | n + 1, s => runTasks env n (runTask env s)

/-- Whether executing the front task makes an observer callback raise an
error that propagates to the host: by the source's `try { … } finally
{ … }` (no `catch`), the error escapes the delivery closure after the
`finally` block has run.  `throws ob q` says whether the callback of `ob`
raises when invoked with batch `q`. -/
def deliveryError (throws : Nat → List Nat → Bool) (s : NLState) : List Nat :=
  match s.tasks with
  | Task.deliver _ q ob :: _ => if throws ob q then [ob] else []
  | _ => []

/-- Host scheduler turns together with the log of errors that propagated to
the host: the state component evolves exactly as `runTask` (the `finally`
block makes the scheduler state independent of whether callbacks raise),
and each raising delivery appends its observer to the error log. -/
def runTasksE (env : Env) (throws : Nat → List Nat → Bool) :
    Nat → NLState × List Nat → NLState × List Nat
  | 0, p => p
  | n + 1, (s, errs) =>
      runTasksE env throws n (runTask env s, errs ++ deliveryError throws s)

/-- The trivial environment: collaborator code performs no re-entrant
`queueRecord` calls. -/
def envNone : Env where
  cleanupEnqueues := fun _ => []
  callbackEnqueues := fun _ _ => []

/-! ## Derived notions used by the statements -/

/-- Number of delivery tasks for round `rd` and observer `ob` in a task
queue. -/
def deliverCount (rd ob : Nat) (ts : List Task) : Nat :=
  ts.countP (fun t => match t with
    | Task.deliver rd2 _ ob2 => rd2 == rd && ob2 == ob
    | Task.flush => false)

/-- Whether a task is the scheduled flush wrapper. -/
def isFlushTask : Task → Bool
  | Task.flush => true
  | Task.deliver _ _ _ => false

/-- Number of flush wrappers currently sitting in the host queue. -/
def flushCount (ts : List Task) : Nat := ts.countP isFlushTask

/-- Whether a pending delivery task's captured batch contains the record. -/
def taskHasRecord (r : Nat) : Task → Bool
  | Task.flush => false
  | Task.deliver _ q _ => decide (r ∈ q)

/-- Record `r` only ever travels in rounds `≥ nr`: every pending delivery
whose batch contains `r` belongs to round `≥ nr`, every logged invocation
whose batch contains `r` does too, and round `nr` has not been passed by
more than the run itself advances.  This is the invariant that makes "a
record enqueued during round `nr - 1`'s delivery phase is only ever
delivered by a round `≥ nr`" provable. -/
def RecBound (r nr : Nat) (s : NLState) : Prop :=
  (∀ rd q ob, Task.deliver rd q ob ∈ s.tasks → r ∈ q → nr ≤ rd) ∧
  (∀ v ∈ s.invocations, r ∈ v.batch → nr ≤ v.round) ∧
  nr ≤ s.nextRound

/-- The states of the subsystem reachable, for a fixed collaborator
behaviour, from the freshly constructed `NotifyList` by its external entry
points — producer enqueues, manual `clear()` drains, direct
`observer.takeRecords()` calls — and turns of the host scheduler. -/
inductive Reachable (env : Env) : NLState → Prop where
  | init : Reachable env initState
  | enqueue (s : NLState) (ob r : Nat) :
      Reachable env s → Reachable env (queueRecord s ob r)
  | drain (s : NLState) : Reachable env s → Reachable env (clear s)
  | extTake (s : NLState) (ob : Nat) :
      Reachable env s → Reachable env (extTakeRecords s ob)
  | step (s : NLState) : Reachable env s → Reachable env (runTask env s)

/-- Collaborator behaviour where the cleanup of observer `0` re-entrantly
enqueues record `7` for observer `1` (cleanup is external code, so nothing
in this module prevents it from calling `queueRecord`). -/
def envCleanup01 : Env where
  cleanupEnqueues := fun ob => if ob = 0 then [(1, 7)] else []
  callbackEnqueues := fun _ _ => []

/-- Record `5` queued for observer `0` and record `9` for observer `2`,
after which outside code took observer `0`'s records, leaving it on the
pending list with an empty queue. -/
def sMixedRound : NLState :=
  extTakeRecords (queueRecord (queueRecord initState 0 5) 2 9) 0

/-- Like `envCleanup01`: cleanup of observer `0` enqueues record `7` for
observer `1`; used for the all-empty-snapshot round. -/
def envCleanup01b : Env where
  cleanupEnqueues := fun ob => if ob = 0 then [(1, 7)] else []
  callbackEnqueues := fun _ _ => []

/-- Record `5` queued for observer `0`, then outside code took observer
`0`'s records: the armed flush round will find only empty queues. -/
def sEmptyRound : NLState := extTakeRecords (queueRecord initState 0 5) 0

/-- Collaborator behaviour where the callback of observer `0` re-entrantly
enqueues record `7` for observer `1` during its own invocation. -/
def envCallback01 : Env where
  cleanupEnqueues := fun _ => []
  callbackEnqueues := fun ob _ => if ob = 0 then [(1, 7)] else []

/-- Error behaviour where the callback of observer `0` raises. -/
def throws0 : Nat → List Nat → Bool := fun ob _ => ob == 0

/-- Record `5` queued for observer `0` and record `6` for observer `1`:
both observers are selected by the same flush round. -/
def sTwoObs : NLState := queueRecord (queueRecord initState 0 5) 1 6

/-- The state just after observer `0`'s callback, invoked in round `0`, has
re-entrantly enqueued the brand-new record `7` for observer `1`: one
enqueue, the flush turn, and the delivery turn have run. -/
def sAfterCallbackEnqueue : NLState :=
  runTasks envCallback01 2 (queueRecord initState 0 5)

/-- The armed flag agrees with the host queue: `this.scheduled` is set iff
exactly one flush wrapper is outstanding (scheduled and not yet started),
and there is never more than one. -/
def FlushFlag (s : NLState) : Prop :=
  (s.scheduled = true ↔ flushCount s.tasks = 1) ∧ flushCount s.tasks ≤ 1

/-- Number of logged callback invocations for round `rd` and observer
`ob`. -/
def invCount (rd ob : Nat) (l : List Invocation) : Nat :=
  l.countP (fun v => v.round == rd && v.observer == ob)

/-- Per-round at-most-once delivery: every pending delivery task belongs to
an already-started round, every logged invocation does too, and for each
round and observer the invocations so far plus the still-pending deliveries
never exceed one. -/
def Inv8 (s : NLState) : Prop :=
  (∀ rd q ob, Task.deliver rd q ob ∈ s.tasks → rd < s.nextRound) ∧
  (∀ v ∈ s.invocations, v.round < s.nextRound) ∧
  ∀ rd ob, invCount rd ob s.invocations + deliverCount rd ob s.tasks ≤ 1

end NotifyList


namespace NotifyList

/-! ## Effect lemmas for the re-entrant entry points

`queueRecord` (and hence any sequence of collaborator enqueues) only ever
appends: to the observer's record queue, to `notifyList`, and (via
`scheduleInvoke`) a flush wrapper to the task queue.  It never touches the
ghost logs, the counters, or the round number. -/

lemma appendP_trans {α : Type} {P : α → Prop} {a b c : List α}
    (h1 : ∃ n1, b = a ++ n1 ∧ ∀ t ∈ n1, P t)
    (h2 : ∃ n2, c = b ++ n2 ∧ ∀ t ∈ n2, P t) :
    ∃ n, c = a ++ n ∧ ∀ t ∈ n, P t := by
  obtain ⟨n1, rfl, hn1⟩ := h1
  obtain ⟨n2, rfl, hn2⟩ := h2
  refine ⟨n1 ++ n2, by simp, ?_⟩
  intro t ht
  rcases List.mem_append.1 ht with h | h
  exacts [hn1 t h, hn2 t h]

lemma append_trans {α : Type} {a b c : List α}
    (h1 : ∃ n1, b = a ++ n1) (h2 : ∃ n2, c = b ++ n2) :
    ∃ n, c = a ++ n := by
  obtain ⟨n1, rfl⟩ := h1
  obtain ⟨n2, rfl⟩ := h2
  exact ⟨n1 ++ n2, by simp⟩

lemma scheduleInvoke_recordQueue (s : NLState) :
    (scheduleInvoke s).recordQueue = s.recordQueue := by
  unfold scheduleInvoke; split <;> rfl

lemma scheduleInvoke_notifyList (s : NLState) :
    (scheduleInvoke s).notifyList = s.notifyList := by
  unfold scheduleInvoke; split <;> rfl

lemma scheduleInvoke_invocations (s : NLState) :
    (scheduleInvoke s).invocations = s.invocations := by
  unfold scheduleInvoke; split <;> rfl

lemma scheduleInvoke_cleanups (s : NLState) :
    (scheduleInvoke s).cleanups = s.cleanups := by
  unfold scheduleInvoke; split <;> rfl

lemma scheduleInvoke_counters (s : NLState) :
    (scheduleInvoke s).counters = s.counters := by
  unfold scheduleInvoke; split <;> rfl

lemma scheduleInvoke_nextRound (s : NLState) :
    (scheduleInvoke s).nextRound = s.nextRound := by
  unfold scheduleInvoke; split <;> rfl

lemma scheduleInvoke_tasks (s : NLState) :
    ∃ new, (scheduleInvoke s).tasks = s.tasks ++ new ∧
      ∀ t ∈ new, t = Task.flush := by
  unfold scheduleInvoke; split
  · exact ⟨[], by simp⟩
  · exact ⟨[Task.flush], rfl, by simp⟩

lemma queueRecord_invocations (s : NLState) (ob r : Nat) :
    (queueRecord s ob r).invocations = s.invocations := by
  unfold queueRecord; split
  · rfl
  · rw [scheduleInvoke_invocations]

lemma queueRecord_cleanups (s : NLState) (ob r : Nat) :
    (queueRecord s ob r).cleanups = s.cleanups := by
  unfold queueRecord; split
  · rfl
  · rw [scheduleInvoke_cleanups]

lemma queueRecord_counters (s : NLState) (ob r : Nat) :
    (queueRecord s ob r).counters = s.counters := by
  unfold queueRecord; split
  · rfl
  · rw [scheduleInvoke_counters]

lemma queueRecord_nextRound (s : NLState) (ob r : Nat) :
    (queueRecord s ob r).nextRound = s.nextRound := by
  unfold queueRecord; split
  · rfl
  · rw [scheduleInvoke_nextRound]

lemma queueRecord_tasks (s : NLState) (ob r : Nat) :
    ∃ new, (queueRecord s ob r).tasks = s.tasks ++ new ∧
      ∀ t ∈ new, t = Task.flush := by
  unfold queueRecord; split
  · exact ⟨[], by simp⟩
  · exact scheduleInvoke_tasks _

lemma queueRecord_recordQueue_mono (s : NLState) (ob r o : Nat) :
    ∃ add, (queueRecord s ob r).recordQueue o = s.recordQueue o ++ add := by
  unfold queueRecord; split
  · exact ⟨[], by simp⟩
  · rw [scheduleInvoke_recordQueue]
    by_cases h : o = ob
    · subst h; exact ⟨[r], by simp⟩
    · exact ⟨[], by simp [h]⟩

lemma queueRecord_notifyList_mono (s : NLState) (ob r : Nat) :
    ∃ add, (queueRecord s ob r).notifyList = s.notifyList ++ add := by
  unfold queueRecord; split
  · exact ⟨[], by simp⟩
  · rw [scheduleInvoke_notifyList]
    exact ⟨[ob], rfl⟩

lemma performEnqueues_cons (p : Nat × Nat) (l : List (Nat × Nat))
    (s : NLState) :
    performEnqueues (p :: l) s = performEnqueues l (queueRecord s p.1 p.2) :=
  rfl

lemma performEnqueues_invocations (l : List (Nat × Nat)) :
    ∀ s : NLState, (performEnqueues l s).invocations = s.invocations := by
  induction l with
  | nil => intro s; rfl
  | cons p rest ih =>
      intro s
      rw [performEnqueues_cons, ih, queueRecord_invocations]

lemma performEnqueues_cleanups (l : List (Nat × Nat)) :
    ∀ s : NLState, (performEnqueues l s).cleanups = s.cleanups := by
  induction l with
  | nil => intro s; rfl
  | cons p rest ih =>
      intro s
      rw [performEnqueues_cons, ih, queueRecord_cleanups]

lemma performEnqueues_counters (l : List (Nat × Nat)) :
    ∀ s : NLState, (performEnqueues l s).counters = s.counters := by
  induction l with
  | nil => intro s; rfl
  | cons p rest ih =>
      intro s
      rw [performEnqueues_cons, ih, queueRecord_counters]

lemma performEnqueues_nextRound (l : List (Nat × Nat)) :
    ∀ s : NLState, (performEnqueues l s).nextRound = s.nextRound := by
  induction l with
  | nil => intro s; rfl
  | cons p rest ih =>
      intro s
      rw [performEnqueues_cons, ih, queueRecord_nextRound]

lemma performEnqueues_tasks (l : List (Nat × Nat)) :
    ∀ s : NLState, ∃ new, (performEnqueues l s).tasks = s.tasks ++ new ∧
      ∀ t ∈ new, t = Task.flush := by
  induction l with
  | nil => intro s; exact ⟨[], by simp [performEnqueues]⟩
  | cons p rest ih =>
      intro s
      rw [performEnqueues_cons]
      exact appendP_trans (queueRecord_tasks s p.1 p.2) (ih _)

lemma performEnqueues_recordQueue_mono (l : List (Nat × Nat)) :
    ∀ s : NLState, ∀ o : Nat,
      ∃ add, (performEnqueues l s).recordQueue o = s.recordQueue o ++ add := by
  induction l with
  | nil => intro s o; exact ⟨[], by simp [performEnqueues]⟩
  | cons p rest ih =>
      intro s o
      rw [performEnqueues_cons]
      exact append_trans (queueRecord_recordQueue_mono s p.1 p.2 o) (ih _ o)

lemma performEnqueues_notifyList_mono (l : List (Nat × Nat)) :
    ∀ s : NLState,
      ∃ add, (performEnqueues l s).notifyList = s.notifyList ++ add := by
  induction l with
  | nil => intro s; exact ⟨[], by simp [performEnqueues]⟩
  | cons p rest ih =>
      intro s
      rw [performEnqueues_cons]
      exact append_trans (queueRecord_notifyList_mono s p.1 p.2) (ih _)

lemma removeTransients_invocations (env : Env) (s : NLState) (ob : Nat) :
    (removeTransientRegisteredObserversForObserver env s ob).invocations =
      s.invocations := by
  unfold removeTransientRegisteredObserversForObserver
  rw [performEnqueues_invocations]

lemma removeTransients_cleanups (env : Env) (s : NLState) (ob : Nat) :
    (removeTransientRegisteredObserversForObserver env s ob).cleanups =
      s.cleanups ++ [ob] := by
  unfold removeTransientRegisteredObserversForObserver
  rw [performEnqueues_cleanups]

lemma removeTransients_counters (env : Env) (s : NLState) (ob : Nat) :
    (removeTransientRegisteredObserversForObserver env s ob).counters =
      s.counters := by
  unfold removeTransientRegisteredObserversForObserver
  rw [performEnqueues_counters]

lemma removeTransients_nextRound (env : Env) (s : NLState) (ob : Nat) :
    (removeTransientRegisteredObserversForObserver env s ob).nextRound =
      s.nextRound := by
  unfold removeTransientRegisteredObserversForObserver
  rw [performEnqueues_nextRound]

lemma removeTransients_tasks (env : Env) (s : NLState) (ob : Nat) :
    ∃ new,
      (removeTransientRegisteredObserversForObserver env s ob).tasks =
        s.tasks ++ new ∧ ∀ t ∈ new, t = Task.flush := by
  unfold removeTransientRegisteredObserversForObserver
  exact performEnqueues_tasks _ _

lemma removeTransients_recordQueue_mono (env : Env) (s : NLState)
    (ob o : Nat) :
    ∃ add,
      (removeTransientRegisteredObserversForObserver env s ob).recordQueue o =
        s.recordQueue o ++ add := by
  unfold removeTransientRegisteredObserversForObserver
  exact performEnqueues_recordQueue_mono _ _ o

lemma removeTransients_notifyList_mono (env : Env) (s : NLState) (ob : Nat) :
    ∃ add,
      (removeTransientRegisteredObserversForObserver env s ob).notifyList =
        s.notifyList ++ add := by
  unfold removeTransientRegisteredObserversForObserver
  exact performEnqueues_notifyList_mono _ _

end NotifyList

namespace NotifyList

/-! ## Effect lemmas for the flush body and the delivery tasks -/

lemma deliverCount_append (rd ob : Nat) (a b : List Task) :
    deliverCount rd ob (a ++ b) = deliverCount rd ob a + deliverCount rd ob b :=
  List.countP_append _ _ _

lemma deliverCount_flushes (rd ob : Nat) {new : List Task}
    (h : ∀ t ∈ new, t = Task.flush) : deliverCount rd ob new = 0 := by
  apply List.countP_eq_zero.2
  intro t ht
  rw [h t ht]
  simp

lemma flushLoop_cons (env : Env) (rd ob : Nat) (rest : List Nat)
    (s : NLState) :
    flushLoop env rd (ob :: rest) s =
      flushLoop env rd rest (processObserver env rd ob s) := rfl

lemma processObserver_invocations (env : Env) (rd ob : Nat) (s : NLState) :
    (processObserver env rd ob s).invocations = s.invocations := by
  unfold processObserver
  dsimp only
  split
  · rw [removeTransients_invocations]; rfl
  · rfl

lemma processObserver_nextRound (env : Env) (rd ob : Nat) (s : NLState) :
    (processObserver env rd ob s).nextRound = s.nextRound := by
  unfold processObserver
  dsimp only
  split
  · rw [removeTransients_nextRound]; rfl
  · rfl

lemma processObserver_cleanups (env : Env) (rd ob : Nat) (s : NLState) :
    (processObserver env rd ob s).cleanups =
      s.cleanups ++ (if s.recordQueue ob = [] then [ob] else []) := by
  unfold processObserver
  dsimp only
  split
  · rename_i h
    rw [removeTransients_cleanups]
    simp [takeRecords, h]
  · rename_i h
    simp [takeRecords, h]

lemma processObserver_tasks (env : Env) (rd ob : Nat) (s : NLState) :
    ∃ new, (processObserver env rd ob s).tasks = s.tasks ++ new ∧
      ((s.recordQueue ob = [] ∧ ∀ t ∈ new, t = Task.flush) ∨
       (s.recordQueue ob ≠ [] ∧
         new = [Task.deliver rd (s.recordQueue ob) ob])) := by
  unfold processObserver
  dsimp only
  split
  · rename_i h
    obtain ⟨new, hn, hf⟩ := removeTransients_tasks env (takeRecords s ob) ob
    exact ⟨new, hn, Or.inl ⟨h, hf⟩⟩
  · rename_i h
    exact ⟨[Task.deliver rd (s.recordQueue ob) ob], rfl, Or.inr ⟨h, rfl⟩⟩

lemma processObserver_recordQueue_ne (env : Env) (rd ob : Nat) (s : NLState)
    (o : Nat) (h : o ≠ ob) :
    ∃ add, (processObserver env rd ob s).recordQueue o =
      s.recordQueue o ++ add := by
  unfold processObserver
  dsimp only
  split
  · obtain ⟨add, ha⟩ :=
      removeTransients_recordQueue_mono env (takeRecords s ob) ob o
    refine ⟨add, ?_⟩
    rw [ha]
    simp [takeRecords, h]
  · exact ⟨[], by simp [takeRecords, h]⟩

lemma processObserver_notifyList_mono (env : Env) (rd ob : Nat)
    (s : NLState) :
    ∃ add, (processObserver env rd ob s).notifyList =
      s.notifyList ++ add := by
  unfold processObserver
  dsimp only
  split
  · exact removeTransients_notifyList_mono env (takeRecords s ob) ob
  · exact ⟨[], by simp [takeRecords]⟩

lemma flushLoop_invocations (env : Env) (rd : Nat) : ∀ (snap : List Nat)
    (s : NLState), (flushLoop env rd snap s).invocations = s.invocations := by
  intro snap
  induction snap with
  | nil => intro s; rfl
  | cons ob rest ih =>
      intro s
      rw [flushLoop_cons, ih, processObserver_invocations]

lemma flushLoop_nextRound (env : Env) (rd : Nat) : ∀ (snap : List Nat)
    (s : NLState), (flushLoop env rd snap s).nextRound = s.nextRound := by
  intro snap
  induction snap with
  | nil => intro s; rfl
  | cons ob rest ih =>
      intro s
      rw [flushLoop_cons, ih, processObserver_nextRound]

lemma flushLoop_tasks (env : Env) (rd : Nat) : ∀ (snap : List Nat)
    (s : NLState),
    ∃ new, (flushLoop env rd snap s).tasks = s.tasks ++ new ∧
      ∀ t ∈ new, t = Task.flush ∨ ∃ q ob, t = Task.deliver rd q ob := by
  intro snap
  induction snap with
  | nil => intro s; exact ⟨[], by simp [flushLoop], by simp⟩
  | cons ob rest ih =>
      intro s
      rw [flushLoop_cons]
      refine appendP_trans ?_ (ih _)
      obtain ⟨new, hn, hchar⟩ := processObserver_tasks env rd ob s
      refine ⟨new, hn, ?_⟩
      intro t ht
      rcases hchar with ⟨_, hf⟩ | ⟨_, hnew⟩
      · exact Or.inl (hf t ht)
      · subst hnew
        rcases List.mem_singleton.1 ht with rfl
        exact Or.inr ⟨_, _, rfl⟩

lemma flushLoop_arms (env : Env) (rd o r : Nat) : ∀ (snap : List Nat)
    (s : NLState), o ∈ snap → r ∈ s.recordQueue o →
    ∃ q, r ∈ q ∧ Task.deliver rd q o ∈ (flushLoop env rd snap s).tasks := by
  intro snap
  induction snap with
  | nil => intro s h; exact absurd h (List.not_mem_nil o)
  | cons ob rest ih =>
      intro s hmem hq
      rw [flushLoop_cons]
      by_cases hob : ob = o
      · subst hob
        have hne : s.recordQueue ob ≠ [] := by
          intro h
          rw [h] at hq
          exact List.not_mem_nil r hq
        obtain ⟨new, hn, hchar⟩ := processObserver_tasks env rd ob s
        rcases hchar with ⟨he, _⟩ | ⟨_, hnew⟩
        · exact absurd he hne
        · obtain ⟨new2, hn2, _⟩ :=
            flushLoop_tasks env rd rest (processObserver env rd ob s)
          refine ⟨s.recordQueue ob, hq, ?_⟩
          rw [hn2, hn, hnew]
          simp
      · have hmem' : o ∈ rest := by
          rcases List.mem_cons.1 hmem with h | h
          · exact absurd h.symm hob
          · exact h
        obtain ⟨add, ha⟩ :=
          processObserver_recordQueue_ne env rd ob s o (fun hh => hob hh.symm)
        refine ih _ hmem' ?_
        rw [ha]
        exact List.mem_append.2 (Or.inl hq)

lemma processObserver_count_eq (env : Env) (rd ob x : Nat) (s : NLState) :
    List.count x (processObserver env rd ob s).cleanups +
      deliverCount rd x (processObserver env rd ob s).tasks =
    List.count x s.cleanups + deliverCount rd x s.tasks +
      (if ob = x then 1 else 0) := by
  obtain ⟨new, hn, hchar⟩ := processObserver_tasks env rd ob s
  rw [processObserver_cleanups, hn, List.count_append, deliverCount_append]
  rcases hchar with ⟨he, hf⟩ | ⟨he, hnew⟩
  · rw [deliverCount_flushes rd x hf, if_pos he]
    simp [List.count_singleton']
    omega
  · rw [if_neg he, hnew]
    have : deliverCount rd x [Task.deliver rd (s.recordQueue ob) ob] =
        if ob = x then 1 else 0 := by
      simp only [deliverCount, List.countP_cons, List.countP_nil]
      by_cases h : ob = x <;> simp [h]
    rw [this]
    simp
    omega

lemma flushLoop_count_eq (env : Env) (rd x : Nat) : ∀ (snap : List Nat)
    (s : NLState),
    List.count x (flushLoop env rd snap s).cleanups +
      deliverCount rd x (flushLoop env rd snap s).tasks =
    List.count x s.cleanups + deliverCount rd x s.tasks +
      List.count x snap := by
  intro snap
  induction snap with
  | nil => intro s; simp [flushLoop]
  | cons ob rest ih =>
      intro s
      rw [flushLoop_cons, ih, processObserver_count_eq, List.count_cons]
      simp [beq_iff_eq]
      omega

end NotifyList

namespace NotifyList

lemma invoke_notifyList (env : Env) (s : NLState) :
    (invokeMutationObservers env s).notifyList = [] := rfl

lemma invoke_invocations (env : Env) (s : NLState) :
    (invokeMutationObservers env s).invocations = s.invocations := by
  unfold invokeMutationObservers
  dsimp only
  rw [flushLoop_invocations]

lemma invoke_nextRound (env : Env) (s : NLState) :
    (invokeMutationObservers env s).nextRound = s.nextRound + 1 := by
  unfold invokeMutationObservers
  dsimp only
  rw [flushLoop_nextRound]

lemma invoke_tasks (env : Env) (s : NLState) :
    ∃ new, (invokeMutationObservers env s).tasks = s.tasks ++ new ∧
      ∀ t ∈ new, t = Task.flush ∨ ∃ q ob, t = Task.deliver s.nextRound q ob := by
  unfold invokeMutationObservers
  dsimp only
  exact flushLoop_tasks env s.nextRound s.notifyList _

lemma invoke_arms (env : Env) (s : NLState) (o r : Nat)
    (hmem : o ∈ s.notifyList) (hq : r ∈ s.recordQueue o) :
    ∃ q, r ∈ q ∧
      Task.deliver s.nextRound q o ∈ (invokeMutationObservers env s).tasks := by
  unfold invokeMutationObservers
  dsimp only
  exact flushLoop_arms env s.nextRound o r s.notifyList _ hmem hq

lemma invoke_count_eq (env : Env) (s : NLState) (x : Nat) :
    List.count x (invokeMutationObservers env s).cleanups +
      deliverCount s.nextRound x (invokeMutationObservers env s).tasks =
    List.count x s.cleanups + deliverCount s.nextRound x s.tasks +
      List.count x s.notifyList := by
  unfold invokeMutationObservers
  dsimp only
  rw [flushLoop_count_eq]

lemma deliverFinally_invocations (rd : Nat) (s : NLState) :
    (deliverFinally rd s).invocations = s.invocations := by
  unfold deliverFinally
  dsimp only
  split
  · rw [scheduleInvoke_invocations]
  · rfl

lemma deliverFinally_cleanups (rd : Nat) (s : NLState) :
    (deliverFinally rd s).cleanups = s.cleanups := by
  unfold deliverFinally
  dsimp only
  split
  · rw [scheduleInvoke_cleanups]
  · rfl

lemma deliverFinally_nextRound (rd : Nat) (s : NLState) :
    (deliverFinally rd s).nextRound = s.nextRound := by
  unfold deliverFinally
  dsimp only
  split
  · rw [scheduleInvoke_nextRound]
  · rfl

lemma deliverFinally_recordQueue (rd : Nat) (s : NLState) :
    (deliverFinally rd s).recordQueue = s.recordQueue := by
  unfold deliverFinally
  dsimp only
  split
  · rw [scheduleInvoke_recordQueue]
  · rfl

lemma deliverFinally_notifyList (rd : Nat) (s : NLState) :
    (deliverFinally rd s).notifyList = s.notifyList := by
  unfold deliverFinally
  dsimp only
  split
  · rw [scheduleInvoke_notifyList]
  · rfl

lemma deliverFinally_tasks (rd : Nat) (s : NLState) :
    ∃ new, (deliverFinally rd s).tasks = s.tasks ++ new ∧
      ∀ t ∈ new, t = Task.flush := by
  unfold deliverFinally
  dsimp only
  split
  · exact scheduleInvoke_tasks _
  · exact ⟨[], by simp⟩

lemma runDeliver_invocations (env : Env) (rd : Nat) (q : List Nat) (ob : Nat)
    (s : NLState) :
    (runDeliver env rd q ob s).invocations =
      s.invocations ++ [⟨rd, ob, q⟩] := by
  unfold runDeliver
  rw [deliverFinally_invocations, performEnqueues_invocations]
  show (removeTransientRegisteredObserversForObserver env s ob).invocations
      ++ _ = _
  rw [removeTransients_invocations]

lemma runDeliver_cleanups (env : Env) (rd : Nat) (q : List Nat) (ob : Nat)
    (s : NLState) :
    (runDeliver env rd q ob s).cleanups = s.cleanups ++ [ob] := by
  unfold runDeliver
  rw [deliverFinally_cleanups, performEnqueues_cleanups]
  show (removeTransientRegisteredObserversForObserver env s ob).cleanups = _
  rw [removeTransients_cleanups]

lemma runDeliver_nextRound (env : Env) (rd : Nat) (q : List Nat) (ob : Nat)
    (s : NLState) :
    (runDeliver env rd q ob s).nextRound = s.nextRound := by
  unfold runDeliver
  rw [deliverFinally_nextRound, performEnqueues_nextRound]
  show (removeTransientRegisteredObserversForObserver env s ob).nextRound = _
  rw [removeTransients_nextRound]

lemma runDeliver_tasks (env : Env) (rd : Nat) (q : List Nat) (ob : Nat)
    (s : NLState) :
    ∃ new, (runDeliver env rd q ob s).tasks = s.tasks ++ new ∧
      ∀ t ∈ new, t = Task.flush := by
  unfold runDeliver
  have h1 := removeTransients_tasks env s ob
  have h2 : ∃ new,
      (logInvocation rd ob q
        (removeTransientRegisteredObserversForObserver env s ob)).tasks =
      (removeTransientRegisteredObserversForObserver env s ob).tasks ++ new ∧
      ∀ t ∈ new, t = Task.flush := ⟨[], by simp [logInvocation], by simp⟩
  have h3 := performEnqueues_tasks (env.callbackEnqueues ob q)
    (logInvocation rd ob q
      (removeTransientRegisteredObserversForObserver env s ob))
  have h4 := deliverFinally_tasks rd
    (performEnqueues (env.callbackEnqueues ob q)
      (logInvocation rd ob q
        (removeTransientRegisteredObserversForObserver env s ob)))
  exact appendP_trans (appendP_trans (appendP_trans h1 h2) h3) h4

lemma runDeliver_recordQueue_mono (env : Env) (rd : Nat) (q : List Nat)
    (ob o : Nat) (s : NLState) :
    ∃ add, (runDeliver env rd q ob s).recordQueue o =
      s.recordQueue o ++ add := by
  unfold runDeliver
  rw [deliverFinally_recordQueue]
  refine append_trans (removeTransients_recordQueue_mono env s ob o) ?_
  exact performEnqueues_recordQueue_mono _ _ o

lemma runDeliver_notifyList_mono (env : Env) (rd : Nat) (q : List Nat)
    (ob : Nat) (s : NLState) :
    ∃ add, (runDeliver env rd q ob s).notifyList =
      s.notifyList ++ add := by
  unfold runDeliver
  rw [deliverFinally_notifyList]
  refine append_trans (removeTransients_notifyList_mono env s ob) ?_
  exact performEnqueues_notifyList_mono _ _

lemma runTask_nil (env : Env) (s : NLState) (h : s.tasks = []) :
    runTask env s = s := by
  unfold runTask
  rw [h]

lemma runTask_cons (env : Env) (s : NLState) (t : Task) (rest : List Task)
    (h : s.tasks = t :: rest) :
    runTask env s = execTask env t { s with tasks := rest } := by
  unfold runTask
  rw [h]

lemma runTasks_succ (env : Env) (n : Nat) (s : NLState) :
    runTasks env (n + 1) s = runTasks env n (runTask env s) := rfl

end NotifyList

namespace NotifyList

/-! ## Claim theorems -/

/-- C6: `queueRecord` appends the record to the observer's queue only if it
differs from the queue's current last entry.  A suppressed duplicate call
leaves the entire state unchanged — in particular it adds no pending-set
entry and arms nothing — and enqueueing the same record twice consecutively
yields exactly one queue entry and exactly one delivered batch entry. -/
theorem queueRecord_dedup :
    (∀ (s : NLState) (ob r : Nat),
        (s.recordQueue ob).getLast? = some r → queueRecord s ob r = s) ∧
    (∀ (s : NLState) (ob r : Nat),
        (s.recordQueue ob).getLast? ≠ some r →
          (queueRecord s ob r).recordQueue ob = s.recordQueue ob ++ [r] ∧
          (queueRecord s ob r).notifyList = s.notifyList ++ [ob]) ∧
    (queueRecord (queueRecord initState 0 5) 0 5).recordQueue 0 = [5] ∧
    (runTasks envNone 2
        (queueRecord (queueRecord initState 0 5) 0 5)).invocations =
      [⟨0, 0, [5]⟩] := by
  refine ⟨?_, ?_, by decide, by decide⟩
  · intro s ob r h
    unfold queueRecord
    rw [if_pos h]
  · intro s ob r h
    unfold queueRecord
    rw [if_neg h]
    constructor
    · rw [scheduleInvoke_recordQueue]
      simp
    · rw [scheduleInvoke_notifyList]

/-- Witness for C6 at concrete inputs: the duplicate enqueue of record `5`
for observer `0` is a no-op, and a first enqueue appends. -/
theorem queueRecord_dedup_witness :
    queueRecord (queueRecord initState 0 5) 0 5 =
      queueRecord initState 0 5 ∧
    (queueRecord initState 0 7).recordQueue 0 =
      initState.recordQueue 0 ++ [7] := by
  constructor
  · exact queueRecord_dedup.1 (queueRecord initState 0 5) 0 5 (by decide)
  · exact (queueRecord_dedup.2.1 initState 0 7 (by decide)).1

/-- C4: `queueRecord` never synchronously invokes any observer callback: it
leaves the invocation log unchanged, and the only task it can create is a
flush wrapper appended at the back of the host FIFO queue, which therefore
runs on a later scheduler turn, after the turn containing the enqueue
call completes. -/
theorem enqueue_no_synchronous_callback (s : NLState) (ob r : Nat) :
    (queueRecord s ob r).invocations = s.invocations ∧
    ∃ new, (queueRecord s ob r).tasks = s.tasks ++ new ∧
      ∀ t ∈ new, t = Task.flush :=
  ⟨queueRecord_invocations s ob r, queueRecord_tasks s ob r⟩

/-- C9: a snapshot entry whose take-records result is empty triggers no
callback (no invocation is logged and no delivery is armed) but receives
its cleanup step exactly once; a non-empty entry arms exactly one delivery
carrying the non-empty batch, and the delivery task performs the cleanup
step immediately before invoking the callback with the batch and the
observer. -/
theorem snapshot_empty_skip_nonempty_deliver :
    (∀ (env : Env) (rd ob : Nat) (s : NLState), s.recordQueue ob = [] →
        (processObserver env rd ob s).invocations = s.invocations ∧
        (processObserver env rd ob s).cleanups = s.cleanups ++ [ob] ∧
        ∃ new, (processObserver env rd ob s).tasks = s.tasks ++ new ∧
          ∀ t ∈ new, t = Task.flush) ∧
    (∀ (env : Env) (rd ob : Nat) (s : NLState), s.recordQueue ob ≠ [] →
        (processObserver env rd ob s).cleanups = s.cleanups ∧
        (processObserver env rd ob s).tasks =
          s.tasks ++ [Task.deliver rd (s.recordQueue ob) ob]) ∧
    (∀ (env : Env) (rd : Nat) (q : List Nat) (ob : Nat) (s : NLState),
        (runDeliver env rd q ob s).cleanups = s.cleanups ++ [ob] ∧
        (runDeliver env rd q ob s).invocations =
          s.invocations ++ [⟨rd, ob, q⟩]) := by
  refine ⟨?_, ?_, ?_⟩
  · intro env rd ob s h
    refine ⟨processObserver_invocations env rd ob s, ?_, ?_⟩
    · rw [processObserver_cleanups, if_pos h]
    · obtain ⟨new, hn, hchar⟩ := processObserver_tasks env rd ob s
      rcases hchar with ⟨_, hf⟩ | ⟨hne, _⟩
      · exact ⟨new, hn, hf⟩
      · exact absurd h hne
  · intro env rd ob s h
    obtain ⟨new, hn, hchar⟩ := processObserver_tasks env rd ob s
    rcases hchar with ⟨he, _⟩ | ⟨_, hnew⟩
    · exact absurd he h
    · constructor
      · rw [processObserver_cleanups, if_neg h]
        simp
      · rw [hn, hnew]
  · intro env rd q ob s
    exact ⟨runDeliver_cleanups env rd q ob s,
      runDeliver_invocations env rd q ob s⟩

/-- Witness for C9 at concrete inputs: observer `0` with an empty queue
gets one cleanup and no delivery; with queue `[5]` exactly one delivery
carrying `[5]` is armed. -/
theorem snapshot_empty_skip_nonempty_deliver_witness :
    initState.recordQueue 0 = [] ∧
    (processObserver envNone 0 0 initState).cleanups =
      initState.cleanups ++ [0] ∧
    (queueRecord initState 0 5).recordQueue 0 ≠ [] ∧
    (processObserver envNone 0 0 (queueRecord initState 0 5)).tasks =
      (queueRecord initState 0 5).tasks ++
        [Task.deliver 0 ((queueRecord initState 0 5).recordQueue 0) 0] := by
  refine ⟨rfl, ?_, by decide, ?_⟩
  · exact (snapshot_empty_skip_nonempty_deliver.1 envNone 0 0 initState
      rfl).2.1
  · exact (snapshot_empty_skip_nonempty_deliver.2.1 envNone 0 0
      (queueRecord initState 0 5) (by decide)).2

/-- C10: across one flush round, for every observer `x` the number of
cleanup executions logged synchronously by the body plus the number of
delivery tasks armed by the body grows by exactly the number of occurrences
of `x` in the snapshot, and each armed delivery task performs exactly one
further cleanup when it runs — so an observer occurring `k` times in the
snapshot receives `k` cleanup executions in total for that round. -/
theorem cleanup_count_equals_occurrences :
    (∀ (env : Env) (s : NLState) (x : Nat),
        List.count x (invokeMutationObservers env s).cleanups +
          deliverCount s.nextRound x (invokeMutationObservers env s).tasks =
        List.count x s.cleanups + deliverCount s.nextRound x s.tasks +
          List.count x s.notifyList) ∧
    (∀ (env : Env) (rd : Nat) (q : List Nat) (ob : Nat) (s : NLState),
        (runDeliver env rd q ob s).cleanups = s.cleanups ++ [ob]) :=
  ⟨fun env s x => invoke_count_eq env s x,
   fun env rd q ob s => runDeliver_cleanups env rd q ob s⟩

/-- C1 (counterexample): the claim says every enqueue made while the flush
round is in progress — including from inside a cleanup step — lands in the
fresh post-snapshot pending set and is not discarded by the current round.
Here cleanup of snapshotted observer `0` enqueues record `7` for observer
`1` during the flush body's loop; after the body the pending list is empty
(the entry for `1` was discarded by `this.notifyList.length = 0`), and
running all remaining tasks delivers only observer `2`'s batch: record `7`
stays in observer `1`'s queue, never delivered. -/
theorem cleanup_enqueue_discarded_cex :
    (runTasks envCleanup01 1 sMixedRound).notifyList = [] ∧
    (runTasks envCleanup01 1 sMixedRound).recordQueue 1 = [7] ∧
    (runTasks envCleanup01 4 sMixedRound).tasks = [] ∧
    (runTasks envCleanup01 4 sMixedRound).scheduled = false ∧
    (runTasks envCleanup01 4 sMixedRound).invocations = [⟨0, 2, [9]⟩] ∧
    (runTasks envCleanup01 4 sMixedRound).recordQueue 1 = [7] := by
  decide

/-- C1 (amended): the flush body iterates the pending entries in place and
empties the pending list only after its loop, so an entry pushed during a
cleanup step of the loop is discarded together with the snapshot; an
enqueue either no-ops (duplicate) or appends the observer to the
then-current pending list, and the delivery phase (where callbacks run, on
turns after the body has already emptied the list) never removes pending
entries — so enqueues made from running callbacks land in the fresh
post-body pending set and survive the round. -/
theorem flush_clears_pending_after_loop :
    (∀ (env : Env) (s : NLState),
        (invokeMutationObservers env s).notifyList = []) ∧
    (∀ (s : NLState) (ob r : Nat),
        queueRecord s ob r = s ∨
          (queueRecord s ob r).notifyList = s.notifyList ++ [ob]) ∧
    (∀ (env : Env) (rd : Nat) (q : List Nat) (ob : Nat) (s : NLState),
        ∃ add, (runDeliver env rd q ob s).notifyList =
          s.notifyList ++ add) := by
  refine ⟨fun env s => invoke_notifyList env s, ?_,
    fun env rd q ob s => runDeliver_notifyList_mono env rd q ob s⟩
  intro s ob r
  unfold queueRecord
  split
  · exact Or.inl rfl
  · right
    rw [scheduleInvoke_notifyList]

/-- C3 (counterexample): the claim says the flush body checks the pending
set after its loop and arms a new round whenever something was enqueued
during a cleanup step.  In a round whose only snapshotted observer `0` has
an empty queue, cleanup of `0` enqueues record `7` for observer `1`.  A new
round does get armed — but by the enqueue itself, and the body then clears
the pending list, discarding the new entry: the armed round finds an empty
pending set, invokes nothing, and record `7` is stranded undelivered. -/
theorem empty_round_cleanup_enqueue_lost_cex :
    (runTasks envCleanup01b 1 sEmptyRound).scheduled = true ∧
    (runTasks envCleanup01b 1 sEmptyRound).notifyList = [] ∧
    (runTasks envCleanup01b 1 sEmptyRound).recordQueue 1 = [7] ∧
    (runTasks envCleanup01b 2 sEmptyRound).invocations = [] ∧
    (runTasks envCleanup01b 2 sEmptyRound).tasks = [] ∧
    (runTasks envCleanup01b 2 sEmptyRound).recordQueue 1 = [7] := by
  decide

/-- C3 (amended): the flush body performs no post-loop pending-set check —
after the loop the pending set is always empty, because the body clears it,
discarding entries enqueued during cleanup steps.  Arming instead happens
eagerly inside `queueRecord`: any unsuppressed enqueue leaves the armed
flag set, which is why a round whose cleanup steps enqueue ends with a new
round armed even though that round will find an empty pending set. -/
theorem arming_during_cleanup_and_post_loop_clear :
    (∀ (s : NLState) (ob r : Nat),
        queueRecord s ob r = s ∨ (queueRecord s ob r).scheduled = true) ∧
    (∀ (env : Env) (s : NLState),
        (invokeMutationObservers env s).notifyList = []) := by
  constructor
  · intro s ob r
    unfold queueRecord
    split
    · exact Or.inl rfl
    · right
      unfold scheduleInvoke
      split
      · rename_i h
        exact h
      · rfl
  · exact fun env s => invoke_notifyList env s

end NotifyList

namespace NotifyList

lemma runTasksE_fst (env : Env) (f : Nat → List Nat → Bool) :
    ∀ (n : Nat) (s : NLState) (errs : List Nat),
      (runTasksE env f n (s, errs)).1 = runTasks env n s := by
  intro n
  induction n with
  | zero => intro s errs; rfl
  | succ n ih =>
      intro s errs
      show (runTasksE env f n (runTask env s, _)).1 = _
      rw [ih, runTasks_succ]

/-- C5: by the source's `try … finally`, a callback's error leaves the
scheduler state exactly as if it had returned normally — the run's state
component is independent of which callbacks raise — so the outstanding
counter is still decremented for the failing delivery and every other
armed delivery still executes.  Concretely: observers `0` and `1` share a
round, `0`'s callback raises (the error propagates to the host, error log
`[0]`), yet `1` still receives its batch, the round's counter reaches
zero, and the zero-triggered re-arm check runs (armed flag set). -/
theorem callback_error_isolated :
    (∀ (env : Env) (f g : Nat → List Nat → Bool) (n : Nat)
        (s : NLState) (errs : List Nat),
        (runTasksE env f n (s, errs)).1 = (runTasksE env g n (s, errs)).1) ∧
    (runTasksE envNone throws0 3 (sTwoObs, [])).2 = [0] ∧
    (runTasksE envNone throws0 3 (sTwoObs, [])).1.invocations =
      [⟨0, 0, [5]⟩, ⟨0, 1, [6]⟩] ∧
    (runTasksE envNone throws0 3 (sTwoObs, [])).1.counters 0 = 0 ∧
    (runTasksE envNone throws0 3 (sTwoObs, [])).1.scheduled = true := by
  refine ⟨?_, by decide, by decide, by decide, by decide⟩
  intro env f g n s errs
  rw [runTasksE_fst, runTasksE_fst]

end NotifyList

namespace NotifyList

/-! ## The armed flag tracks the outstanding flush wrapper (C7) -/

lemma flushCount_append (a b : List Task) :
    flushCount (a ++ b) = flushCount a + flushCount b :=
  List.countP_append _ _ _

lemma flushCount_deliver (rd : Nat) (q : List Nat) (ob : Nat) :
    flushCount [Task.deliver rd q ob] = 0 := rfl

lemma flushCount_flush : flushCount [Task.flush] = 1 := rfl

lemma FlushFlag_scheduleInvoke (s : NLState) (h : FlushFlag s) :
    FlushFlag (scheduleInvoke s) := by
  unfold scheduleInvoke
  split
  · exact h
  · rename_i hs
    obtain ⟨hiff, hle⟩ := h
    have h0 : flushCount s.tasks = 0 := by
      rcases Nat.lt_or_ge (flushCount s.tasks) 1 with h1 | h1
      · omega
      · exact absurd (hiff.2 (by omega)) hs
    constructor
    · show (true = true ↔ flushCount (s.tasks ++ [Task.flush]) = 1)
      rw [flushCount_append, h0, flushCount_flush]
      simp
    · show flushCount (s.tasks ++ [Task.flush]) ≤ 1
      rw [flushCount_append, h0, flushCount_flush]

lemma FlushFlag_queueRecord (s : NLState) (ob r : Nat) (h : FlushFlag s) :
    FlushFlag (queueRecord s ob r) := by
  unfold queueRecord
  split
  · exact h
  · exact FlushFlag_scheduleInvoke _ h

lemma FlushFlag_performEnqueues (l : List (Nat × Nat)) :
    ∀ (s : NLState), FlushFlag s → FlushFlag (performEnqueues l s) := by
  induction l with
  | nil => intro s h; exact h
  | cons p rest ih =>
      intro s h
      rw [performEnqueues_cons]
      exact ih _ (FlushFlag_queueRecord s p.1 p.2 h)

lemma FlushFlag_removeTransients (env : Env) (s : NLState) (ob : Nat)
    (h : FlushFlag s) :
    FlushFlag (removeTransientRegisteredObserversForObserver env s ob) :=
  FlushFlag_performEnqueues _ _ h

lemma FlushFlag_processObserver (env : Env) (rd ob : Nat) (s : NLState)
    (h : FlushFlag s) : FlushFlag (processObserver env rd ob s) := by
  unfold processObserver
  dsimp only
  split
  · exact FlushFlag_removeTransients env _ ob h
  · obtain ⟨hiff, hle⟩ := h
    constructor
    · show (s.scheduled = true ↔
        flushCount (s.tasks ++ [Task.deliver rd (s.recordQueue ob) ob]) = 1)
      rw [flushCount_append, flushCount_deliver]
      simpa using hiff
    · show flushCount (s.tasks ++ [Task.deliver rd (s.recordQueue ob) ob]) ≤ 1
      rw [flushCount_append, flushCount_deliver]
      simpa using hle

lemma FlushFlag_flushLoop (env : Env) (rd : Nat) : ∀ (snap : List Nat)
    (s : NLState), FlushFlag s → FlushFlag (flushLoop env rd snap s) := by
  intro snap
  induction snap with
  | nil => intro s h; exact h
  | cons ob rest ih =>
      intro s h
      rw [flushLoop_cons]
      exact ih _ (FlushFlag_processObserver env rd ob s h)

lemma FlushFlag_invoke (env : Env) (s : NLState) (h : FlushFlag s) :
    FlushFlag (invokeMutationObservers env s) := by
  unfold invokeMutationObservers
  dsimp only
  have h2 := FlushFlag_flushLoop env s.nextRound s.notifyList
    { s with nextRound := s.nextRound + 1 } h
  exact h2

lemma FlushFlag_deliverFinally (rd : Nat) (s : NLState) (h : FlushFlag s) :
    FlushFlag (deliverFinally rd s) := by
  unfold deliverFinally
  dsimp only
  split
  · exact FlushFlag_scheduleInvoke _ h
  · exact h

lemma FlushFlag_runDeliver (env : Env) (rd : Nat) (q : List Nat) (ob : Nat)
    (s : NLState) (h : FlushFlag s) : FlushFlag (runDeliver env rd q ob s) := by
  unfold runDeliver
  exact FlushFlag_deliverFinally rd _
    (FlushFlag_performEnqueues _ _
      (FlushFlag_removeTransients env s ob h))

lemma FlushFlag_runTask (env : Env) (s : NLState) (h : FlushFlag s) :
    FlushFlag (runTask env s) := by
  unfold runTask
  cases htasks : s.tasks with
  | nil => exact h
  | cons t rest =>
      obtain ⟨hiff, hle⟩ := h
      rw [htasks] at hiff hle
      cases t with
      | flush =>
          have hrest : flushCount rest = 0 := by
            have : flushCount (Task.flush :: rest) = 1 + flushCount rest := by
              simp [flushCount, List.countP_cons, isFlushTask]
              omega
            omega
          show FlushFlag (invokeMutationObservers env _)
          apply FlushFlag_invoke
          constructor
          · show (false = true ↔ flushCount rest = 1)
            rw [hrest]
            simp
          · show flushCount rest ≤ 1
            omega
      | deliver rd q ob =>
          have heq : flushCount (Task.deliver rd q ob :: rest) =
              flushCount rest := by
            simp [flushCount, List.countP_cons, isFlushTask]
          apply FlushFlag_runDeliver
          constructor
          · show (s.scheduled = true ↔ flushCount rest = 1)
            rw [← heq]
            exact hiff
          · show flushCount rest ≤ 1
            omega

lemma FlushFlag_clear (s : NLState) (h : FlushFlag s) :
    FlushFlag (clear s) := h

lemma FlushFlag_extTakeRecords (s : NLState) (ob : Nat) (h : FlushFlag s) :
    FlushFlag (extTakeRecords s ob) := h

lemma FlushFlag_reachable (env : Env) (s : NLState) (h : Reachable env s) :
    FlushFlag s := by
  induction h with
  | init => exact ⟨by simp [initState, flushCount], by simp [initState, flushCount]⟩
  | enqueue s ob r _ ih => exact FlushFlag_queueRecord s ob r ih
  | drain s _ ih => exact FlushFlag_clear s ih
  | extTake s ob _ ih => exact FlushFlag_extTakeRecords s ob ih
  | step s _ ih => exact FlushFlag_runTask env s ih

/-- C7 (counterexample): the claim says `armed` is false whenever nothing
is pending, `clear()` included.  But `clear()` does not touch
`this.scheduled`: after an enqueue followed by `clear()`, the reachable
state has an empty pending list and an empty record queue, yet the armed
flag is still set. -/
theorem armed_after_clear_cex :
    Reachable envNone (clear (queueRecord initState 0 5)) ∧
    (clear (queueRecord initState 0 5)).scheduled = true ∧
    (clear (queueRecord initState 0 5)).notifyList = [] ∧
    (clear (queueRecord initState 0 5)).recordQueue 0 = [] := by
  refine ⟨?_, by decide, by decide, by decide⟩
  exact Reachable.drain _ (Reachable.enqueue _ 0 5 Reachable.init)

/-- C7 (amended): at every reachable state, `armed` (`this.scheduled`) is
set iff a flush has been requested and its wrapper has not yet started
executing — i.e. iff exactly one flush wrapper is outstanding in the host
queue — and there is never more than one; but `armed` is not always false
when nothing is pending, since `clear()` leaves it set. -/
theorem armed_iff_flush_outstanding (env : Env) (s : NLState)
    (h : Reachable env s) :
    (s.scheduled = true ↔ flushCount s.tasks = 1) ∧
      flushCount s.tasks ≤ 1 :=
  FlushFlag_reachable env s h

/-- Witness for C7's amended invariant at the reachable state reached by a
single enqueue. -/
theorem armed_iff_flush_outstanding_witness :
    Reachable envNone (queueRecord initState 0 5) ∧
    (((queueRecord initState 0 5).scheduled = true ↔
        flushCount (queueRecord initState 0 5).tasks = 1) ∧
      flushCount (queueRecord initState 0 5).tasks ≤ 1) :=
  ⟨Reachable.enqueue _ 0 5 Reachable.init,
   armed_iff_flush_outstanding envNone _
     (Reachable.enqueue _ 0 5 Reachable.init)⟩

end NotifyList

namespace NotifyList

/-! ## At most one delivery per observer per round (C8) -/

lemma invCount_append (rd ob : Nat) (a b : List Invocation) :
    invCount rd ob (a ++ b) = invCount rd ob a + invCount rd ob b :=
  List.countP_append _ _ _

lemma invCount_singleton (rd ob rd2 ob2 : Nat) (q : List Nat) :
    invCount rd ob [⟨rd2, ob2, q⟩] =
      if rd2 = rd ∧ ob2 = ob then 1 else 0 := by
  by_cases h1 : rd2 = rd <;> by_cases h2 : ob2 = ob <;>
    simp [invCount, List.countP_cons, h1, h2]

lemma deliverCount_cons_deliver (rd ob rd2 : Nat) (q : List Nat)
    (ob2 : Nat) (rest : List Task) :
    deliverCount rd ob (Task.deliver rd2 q ob2 :: rest) =
      deliverCount rd ob rest + (if rd2 = rd ∧ ob2 = ob then 1 else 0) := by
  by_cases h1 : rd2 = rd <;> by_cases h2 : ob2 = ob <;>
    simp [deliverCount, List.countP_cons, h1, h2]

lemma deliverCount_singleton_deliver (rd ob rd2 : Nat) (q : List Nat)
    (ob2 : Nat) :
    deliverCount rd ob [Task.deliver rd2 q ob2] =
      if rd2 = rd ∧ ob2 = ob then 1 else 0 := by
  rw [deliverCount_cons_deliver]
  simp [deliverCount]

/-- When cleanup performs no re-entrant enqueues (the behaviour the spec
assigns to cleanup in §6), one loop iteration is exactly: take the records,
then either log one cleanup (empty result) or arm one delivery. -/
lemma processObserver_noCleanupEnq (env : Env)
    (hcl : env.cleanupEnqueues = fun _ => []) (rd ob : Nat) (s : NLState) :
    processObserver env rd ob s =
      if s.recordQueue ob = [] then
        { takeRecords s ob with cleanups := s.cleanups ++ [ob] }
      else
        { takeRecords s ob with
          counters := fun n => if n = rd then s.counters rd + 1
            else s.counters n,
          tasks := s.tasks ++ [Task.deliver rd (s.recordQueue ob) ob] } := by
  unfold processObserver removeTransientRegisteredObserversForObserver
  dsimp only
  rw [hcl]
  rcases eq_or_ne (s.recordQueue ob) [] with h | h
  · simp only [if_pos h]
    rfl
  · simp only [if_neg h]
    rfl

lemma flushLoop_deliverBound (env : Env)
    (hcl : env.cleanupEnqueues = fun _ => []) (rd x : Nat) :
    ∀ (snap : List Nat) (s : NLState),
      deliverCount rd x (flushLoop env rd snap s).tasks ≤
        deliverCount rd x s.tasks +
          (if s.recordQueue x = [] then 0 else 1) := by
  intro snap
  induction snap with
  | nil => intro s; exact Nat.le_add_right _ _
  | cons ob rest ih =>
      intro s
      rw [flushLoop_cons, processObserver_noCleanupEnq env hcl]
      by_cases hq : s.recordQueue ob = []
      · rw [if_pos hq]
        refine le_trans (ih _) ?_
        by_cases hxo : x = ob
        · subst hxo
          simp [takeRecords]
        · simp [takeRecords, hxo]
      · rw [if_neg hq]
        refine le_trans (ih _) ?_
        by_cases hxo : x = ob
        · subst hxo
          show deliverCount rd x (s.tasks ++ [Task.deliver rd (s.recordQueue x) x]) +
              (if (if x = x then ([] : List Nat) else s.recordQueue x) = []
                then 0 else 1) ≤ _
          rw [deliverCount_append, deliverCount_singleton_deliver]
          simp [hq]
        · show deliverCount rd x (s.tasks ++ [Task.deliver rd (s.recordQueue ob) ob]) +
              (if (if x = ob then ([] : List Nat) else s.recordQueue x) = []
                then 0 else 1) ≤ _
          rw [deliverCount_append, deliverCount_singleton_deliver]
          have hxo2 : ¬ob = x := fun h => hxo h.symm
          simp [hxo, hxo2]

end NotifyList

namespace NotifyList

lemma Inv8_extend_flush {s s2 : NLState}
    (htasks : ∃ new, s2.tasks = s.tasks ++ new ∧ ∀ t ∈ new, t = Task.flush)
    (hinv : s2.invocations = s.invocations)
    (hnr : s2.nextRound = s.nextRound) (h : Inv8 s) : Inv8 s2 := by
  obtain ⟨new, hn, hf⟩ := htasks
  obtain ⟨h1, h2, h3⟩ := h
  refine ⟨?_, ?_, ?_⟩
  · intro rd q ob hmem
    rw [hn] at hmem
    rw [hnr]
    rcases List.mem_append.1 hmem with hm | hm
    · exact h1 rd q ob hm
    · exact absurd (hf _ hm) (by simp)
  · intro v hv
    rw [hinv] at hv
    rw [hnr]
    exact h2 v hv
  · intro rd ob
    rw [hinv, hn, deliverCount_append, deliverCount_flushes rd ob hf]
    simpa using h3 rd ob

lemma Inv8_queueRecord (s : NLState) (ob r : Nat) (h : Inv8 s) :
    Inv8 (queueRecord s ob r) :=
  Inv8_extend_flush (queueRecord_tasks s ob r)
    (queueRecord_invocations s ob r) (queueRecord_nextRound s ob r) h

lemma Inv8_clear (s : NLState) (h : Inv8 s) : Inv8 (clear s) := h

lemma Inv8_extTakeRecords (s : NLState) (ob : Nat) (h : Inv8 s) :
    Inv8 (extTakeRecords s ob) := h

lemma Inv8_invoke (env : Env) (hcl : env.cleanupEnqueues = fun _ => [])
    (s : NLState) (h : Inv8 s) : Inv8 (invokeMutationObservers env s) := by
  obtain ⟨h1, h2, h3⟩ := h
  obtain ⟨new, hn, hchar⟩ := invoke_tasks env s
  have hinvoc := invoke_invocations env s
  have hnr := invoke_nextRound env s
  refine ⟨?_, ?_, ?_⟩
  · intro rd q ob hm
    rw [hn] at hm
    rw [hnr]
    rcases List.mem_append.1 hm with hm | hm
    · exact Nat.lt_succ_of_lt (h1 rd q ob hm)
    · rcases hchar _ hm with hf | ⟨q2, ob2, heq⟩
      · exact absurd hf (by simp)
      · injection heq with hrd _
        omega
  · intro v hv
    rw [hinvoc] at hv
    rw [hnr]
    exact Nat.lt_succ_of_lt (h2 v hv)
  · intro rd ob
    rw [hinvoc]
    by_cases hrd : rd = s.nextRound
    · have hinv0 : invCount rd ob s.invocations = 0 := by
        apply List.countP_eq_zero.2
        intro v hv
        have hlt := h2 v hv
        have hne : v.round ≠ rd := by omega
        simp [hne]
      have hdc0 : deliverCount rd ob s.tasks = 0 := by
        apply List.countP_eq_zero.2
        intro t ht
        cases t with
        | flush => simp
        | deliver rd2 q2 ob2 =>
            have hlt := h1 rd2 q2 ob2 ht
            have hne : rd2 ≠ rd := by omega
            simp [hne]
      rw [hinv0]
      have hb := flushLoop_deliverBound env hcl s.nextRound ob s.notifyList
        { s with nextRound := s.nextRound + 1 }
      have hle : deliverCount rd ob (invokeMutationObservers env s).tasks ≤
          deliverCount rd ob s.tasks +
            (if s.recordQueue ob = [] then 0 else 1) := by
        rw [hrd]
        exact hb
      rw [hdc0] at hle
      rcases eq_or_ne (s.recordQueue ob) [] with he | he
      · rw [if_pos he] at hle
        omega
      · rw [if_neg he] at hle
        omega
    · have hnew0 : deliverCount rd ob new = 0 := by
        apply List.countP_eq_zero.2
        intro t ht
        rcases hchar _ ht with hf | ⟨q2, ob2, heq⟩
        · rw [hf]
          simp
        · rw [heq]
          have hne : s.nextRound ≠ rd := fun hh => hrd hh.symm
          simp [hne]
      rw [hn, deliverCount_append, hnew0]
      simpa using h3 rd ob

lemma Inv8_runTask (env : Env) (hcl : env.cleanupEnqueues = fun _ => [])
    (s : NLState) (h : Inv8 s) : Inv8 (runTask env s) := by
  unfold runTask
  cases htasks : s.tasks with
  | nil => exact h
  | cons t rest =>
      obtain ⟨h1, h2, h3⟩ := h
      cases t with
      | flush =>
          show Inv8 (invokeMutationObservers env
            { s with scheduled := false, tasks := rest })
          apply Inv8_invoke env hcl
          refine ⟨?_, ?_, ?_⟩
          · intro rd q ob hm
            show rd < s.nextRound
            exact h1 rd q ob (htasks ▸ List.mem_cons_of_mem _ hm)
          · intro v hv
            show v.round < s.nextRound
            exact h2 v hv
          · intro rd ob
            show invCount rd ob s.invocations + deliverCount rd ob rest ≤ 1
            have hd : deliverCount rd ob s.tasks =
                deliverCount rd ob rest := by
              rw [htasks]
              simp [deliverCount, List.countP_cons]
            have := h3 rd ob
            omega
      | deliver rd q ob =>
          have hmem : Task.deliver rd q ob ∈ s.tasks := by
            rw [htasks]
            exact List.mem_cons_self _ _
          show Inv8 (runDeliver env rd q ob { s with tasks := rest })
          obtain ⟨newT, hT, hTf⟩ :=
            runDeliver_tasks env rd q ob { s with tasks := rest }
          have hinvoc :=
            runDeliver_invocations env rd q ob { s with tasks := rest }
          have hnr := runDeliver_nextRound env rd q ob { s with tasks := rest }
          have e1 : ({ s with tasks := rest } : NLState).invocations =
              s.invocations := rfl
          have e2 : ({ s with tasks := rest } : NLState).tasks = rest := rfl
          have e3 : ({ s with tasks := rest } : NLState).nextRound =
              s.nextRound := rfl
          rw [e1] at hinvoc
          rw [e2] at hT
          rw [e3] at hnr
          refine ⟨?_, ?_, ?_⟩
          · intro rd2 q2 ob2 hm
            rw [hT] at hm
            rw [hnr]
            rcases List.mem_append.1 hm with hm | hm
            · exact h1 rd2 q2 ob2 (htasks ▸ List.mem_cons_of_mem _ hm)
            · exact absurd (hTf _ hm) (by simp)
          · intro v hv
            rw [hinvoc] at hv
            rw [hnr]
            rcases List.mem_append.1 hv with hv | hv
            · exact h2 v hv
            · rcases List.mem_singleton.1 hv with rfl
              exact h1 rd q ob hmem
          · intro rd2 ob2
            rw [hinvoc, hT, invCount_append, deliverCount_append,
              deliverCount_flushes rd2 ob2 hTf, invCount_singleton]
            have hcons := h3 rd2 ob2
            rw [htasks, deliverCount_cons_deliver] at hcons
            omega

lemma Inv8_reachable (env : Env) (hcl : env.cleanupEnqueues = fun _ => [])
    (s : NLState) (h : Reachable env s) : Inv8 s := by
  induction h with
  | init =>
      refine ⟨?_, ?_, ?_⟩
      · intro rd q ob hm
        exact absurd hm (List.not_mem_nil _)
      · intro v hv
        exact absurd hv (List.not_mem_nil _)
      · intro rd ob
        simp [invCount, deliverCount, initState]
  | enqueue s ob r _ ih => exact Inv8_queueRecord s ob r ih
  | drain s _ ih => exact Inv8_clear s ih
  | extTake s ob _ ih => exact Inv8_extTakeRecords s ob ih
  | step s _ ih => exact Inv8_runTask env hcl s ih

/-- C8: when cleanup performs no re-entrant enqueues (the behaviour the
spec assigns to cleanup in §6 — the source's transient-observer removal
queues no records), every reachable state satisfies: for each flush round
and each observer, the logged callback invocations of that round plus the
still-pending deliveries of that round never exceed one — duplicates in the
pending-set snapshot are deduplicated at flush time because the first
occurrence's take-records empties the observer's own queue, so later
occurrences find it empty and are skipped. -/
theorem observer_delivered_at_most_once_per_round (env : Env)
    (hcl : env.cleanupEnqueues = fun _ => []) (s : NLState)
    (h : Reachable env s) (rd ob : Nat) :
    invCount rd ob s.invocations + deliverCount rd ob s.tasks ≤ 1 :=
  (Inv8_reachable env hcl s h).2.2 rd ob

/-- Witness for C8 at a concrete run: observer `0` is enqueued twice
(records `5` then `6`), appearing twice in the flush snapshot; after the
flush body and the delivery turn its callback has run exactly once. -/
theorem observer_delivered_at_most_once_per_round_witness :
    envNone.cleanupEnqueues = (fun _ => []) ∧
    Reachable envNone
      (runTask envNone (runTask envNone
        (queueRecord (queueRecord initState 0 5) 0 6))) ∧
    invCount 0 0
        (runTask envNone (runTask envNone
          (queueRecord (queueRecord initState 0 5) 0 6))).invocations +
      deliverCount 0 0
        (runTask envNone (runTask envNone
          (queueRecord (queueRecord initState 0 5) 0 6))).tasks ≤ 1 := by
  have hr : Reachable envNone
      (runTask envNone (runTask envNone
        (queueRecord (queueRecord initState 0 5) 0 6))) :=
    Reachable.step _ (Reachable.step _
      (Reachable.enqueue _ 0 6 (Reachable.enqueue _ 0 5 Reachable.init)))
  exact ⟨rfl, hr,
    observer_delivered_at_most_once_per_round envNone rfl _ hr 0 0⟩

end NotifyList

namespace NotifyList

/-! ## Records enqueued during delivery reach a later round (C2) -/

lemma RecBound_extend_flush {r nr : Nat} {s s2 : NLState}
    (htasks : ∃ new, s2.tasks = s.tasks ++ new ∧ ∀ t ∈ new, t = Task.flush)
    (hinv : s2.invocations = s.invocations)
    (hnr : s.nextRound ≤ s2.nextRound) (h : RecBound r nr s) :
    RecBound r nr s2 := by
  obtain ⟨new, hn, hf⟩ := htasks
  obtain ⟨h1, h2, h3⟩ := h
  refine ⟨?_, ?_, le_trans h3 hnr⟩
  · intro rd q ob hm hr
    rw [hn] at hm
    rcases List.mem_append.1 hm with hm | hm
    · exact h1 rd q ob hm hr
    · exact absurd (hf _ hm) (by simp)
  · intro v hv hr
    rw [hinv] at hv
    exact h2 v hv hr

lemma RecBound_tail (r nr : Nat) (s : NLState) (t : Task) (rest : List Task)
    (hts : s.tasks = t :: rest) (h : RecBound r nr s) :
    RecBound r nr { s with tasks := rest } := by
  obtain ⟨h1, h2, h3⟩ := h
  refine ⟨?_, h2, h3⟩
  intro rd q ob hm
  refine h1 rd q ob ?_
  rw [hts]
  exact List.mem_cons_of_mem _ hm

lemma RecBound_invoke (env : Env) {r nr : Nat} (s : NLState)
    (h : RecBound r nr s) : RecBound r nr (invokeMutationObservers env s) := by
  obtain ⟨h1, h2, h3⟩ := h
  obtain ⟨new, hn, hchar⟩ := invoke_tasks env s
  refine ⟨?_, ?_, ?_⟩
  · intro rd q ob hm hr
    rw [hn] at hm
    rcases List.mem_append.1 hm with hm | hm
    · exact h1 rd q ob hm hr
    · rcases hchar _ hm with hf | ⟨q2, ob2, heq⟩
      · exact absurd hf (by simp)
      · injection heq with hrd _
        omega
  · intro v hv hr
    rw [invoke_invocations] at hv
    exact h2 v hv hr
  · rw [invoke_nextRound]
    omega

lemma RecBound_runDeliver (env : Env) {r nr : Nat} (rd : Nat) (q : List Nat)
    (ob : Nat) (s : NLState) (h : RecBound r nr s)
    (hh : r ∈ q → nr ≤ rd) : RecBound r nr (runDeliver env rd q ob s) := by
  obtain ⟨h1, h2, h3⟩ := h
  obtain ⟨newT, hT, hTf⟩ := runDeliver_tasks env rd q ob s
  refine ⟨?_, ?_, ?_⟩
  · intro rd2 q2 ob2 hm hr
    rw [hT] at hm
    rcases List.mem_append.1 hm with hm | hm
    · exact h1 rd2 q2 ob2 hm hr
    · exact absurd (hTf _ hm) (by simp)
  · intro v hv hr
    rw [runDeliver_invocations] at hv
    rcases List.mem_append.1 hv with hv | hv
    · exact h2 v hv hr
    · rcases List.mem_singleton.1 hv with rfl
      exact hh hr
  · rw [runDeliver_nextRound]
    exact h3

lemma deliver_phase (env : Env) (o r nr : Nat) : ∀ (c : List Task)
    (s : NLState) (rd : Nat) (q : List Nat) (d : List Task),
    s.tasks = c ++ Task.deliver rd q o :: d → r ∈ q → nr ≤ rd →
    RecBound r nr s →
    ∃ n, (∃ v ∈ (runTasks env n s).invocations,
            v.observer = o ∧ r ∈ v.batch ∧ nr ≤ v.round) ∧
         ∀ v ∈ (runTasks env n s).invocations, r ∈ v.batch → nr ≤ v.round := by
  intro c
  induction c with
  | nil =>
      intro s rd q d hts hrq hrd hB
      have hts' : s.tasks = Task.deliver rd q o :: d := by
        rw [hts]
        rfl
      have hrun : runTasks env 1 s =
          runDeliver env rd q o { s with tasks := d } := by
        show runTask env s = _
        rw [runTask_cons env s _ _ hts']
        rfl
      refine ⟨1, ?_, ?_⟩
      · rw [hrun, runDeliver_invocations]
        exact ⟨⟨rd, o, q⟩,
          List.mem_append.2 (Or.inr (List.mem_singleton_self _)),
          rfl, hrq, hrd⟩
      · intro v hv hr
        rw [hrun, runDeliver_invocations] at hv
        rcases List.mem_append.1 hv with hv | hv
        · exact hB.2.1 v hv hr
        · rcases List.mem_singleton.1 hv with rfl
          exact hrd
  | cons t c ih =>
      intro s rd q d hts hrq hrd hB
      have hts' : s.tasks = t :: (c ++ Task.deliver rd q o :: d) := by
        rw [hts]
        rfl
      cases t with
      | flush =>
          have hB1 : RecBound r nr
              { s with tasks := c ++ Task.deliver rd q o :: d } :=
            RecBound_tail r nr s _ _ hts' hB
          have hB2 : RecBound r nr (invokeMutationObservers env
              { s with scheduled := false, tasks := c ++ Task.deliver rd q o :: d }) :=
            RecBound_invoke env _ hB1
          obtain ⟨new, hn, _⟩ := invoke_tasks env
            { s with scheduled := false, tasks := c ++ Task.deliver rd q o :: d }
          have hshape : (invokeMutationObservers env
              { s with scheduled := false, tasks := c ++ Task.deliver rd q o :: d }).tasks =
              c ++ Task.deliver rd q o :: (d ++ new) := by
            rw [hn]
            show (c ++ Task.deliver rd q o :: d) ++ new = _
            simp
          obtain ⟨n, h1, h2⟩ := ih _ rd q (d ++ new) hshape hrq hrd hB2
          refine ⟨n + 1, ?_, ?_⟩
          · rw [runTasks_succ, runTask_cons env s _ _ hts']
            exact h1
          · rw [runTasks_succ, runTask_cons env s _ _ hts']
            exact h2
      | deliver rd2 q2 ob2 =>
          have hmemhead : Task.deliver rd2 q2 ob2 ∈ s.tasks := by
            rw [hts']
            exact List.mem_cons_self _ _
          have hB1 : RecBound r nr
              { s with tasks := c ++ Task.deliver rd q o :: d } :=
            RecBound_tail r nr s _ _ hts' hB
          have hB2 : RecBound r nr (runDeliver env rd2 q2 ob2
              { s with tasks := c ++ Task.deliver rd q o :: d }) :=
            RecBound_runDeliver env rd2 q2 ob2 _ hB1
              (fun hr => hB.1 rd2 q2 ob2 hmemhead hr)
          obtain ⟨newT, hT, _⟩ := runDeliver_tasks env rd2 q2 ob2
            { s with tasks := c ++ Task.deliver rd q o :: d }
          have hshape : (runDeliver env rd2 q2 ob2
              { s with tasks := c ++ Task.deliver rd q o :: d }).tasks =
              c ++ Task.deliver rd q o :: (d ++ newT) := by
            rw [hT]
            show (c ++ Task.deliver rd q o :: d) ++ newT = _
            simp
          obtain ⟨n, h1, h2⟩ := ih _ rd q (d ++ newT) hshape hrq hrd hB2
          refine ⟨n + 1, ?_, ?_⟩
          · rw [runTasks_succ, runTask_cons env s _ _ hts']
            exact h1
          · rw [runTasks_succ, runTask_cons env s _ _ hts']
            exact h2

lemma flush_head_case (env : Env) (o r nr : Nat) (s : NLState)
    (b : List Task) (hts : s.tasks = Task.flush :: b)
    (hq : r ∈ s.recordQueue o) (hn : o ∈ s.notifyList)
    (hnr : nr ≤ s.nextRound) (hB : RecBound r nr s) :
    ∃ n, (∃ v ∈ (runTasks env n s).invocations,
            v.observer = o ∧ r ∈ v.batch ∧ nr ≤ v.round) ∧
         ∀ v ∈ (runTasks env n s).invocations, r ∈ v.batch → nr ≤ v.round := by
  have hq2 : r ∈ ({ s with scheduled := false, tasks := b } : NLState).recordQueue o := hq
  have hn2 : o ∈ ({ s with scheduled := false, tasks := b } : NLState).notifyList := hn
  obtain ⟨qq, hqq, hmem⟩ := invoke_arms env
    { s with scheduled := false, tasks := b } o r hn2 hq2
  obtain ⟨c, d, hcd⟩ := List.append_of_mem hmem
  have hB1 : RecBound r nr ({ s with scheduled := false, tasks := b } : NLState) :=
    RecBound_tail r nr s _ _ hts hB
  have hB2 : RecBound r nr (invokeMutationObservers env
      { s with scheduled := false, tasks := b }) :=
    RecBound_invoke env _ hB1
  obtain ⟨n, h1, h2⟩ := deliver_phase env o r nr c
    (invokeMutationObservers env { s with scheduled := false, tasks := b })
    s.nextRound qq d hcd hqq hnr hB2
  refine ⟨n + 1, ?_, ?_⟩
  · rw [runTasks_succ, runTask_cons env s _ _ hts]
    exact h1
  · rw [runTasks_succ, runTask_cons env s _ _ hts]
    exact h2

lemma flush_phase (env : Env) (o r nr : Nat) : ∀ (a : List Task)
    (s : NLState) (b : List Task), s.tasks = a ++ Task.flush :: b →
    r ∈ s.recordQueue o → o ∈ s.notifyList → nr ≤ s.nextRound →
    RecBound r nr s →
    ∃ n, (∃ v ∈ (runTasks env n s).invocations,
            v.observer = o ∧ r ∈ v.batch ∧ nr ≤ v.round) ∧
         ∀ v ∈ (runTasks env n s).invocations, r ∈ v.batch → nr ≤ v.round := by
  intro a
  induction a with
  | nil =>
      intro s b hts hq hn hnr hB
      exact flush_head_case env o r nr s b (by rw [hts]; rfl) hq hn hnr hB
  | cons t a ih =>
      intro s b hts hq hn hnr hB
      cases t with
      | flush =>
          exact flush_head_case env o r nr s (a ++ Task.flush :: b)
            (by rw [hts]; rfl) hq hn hnr hB
      | deliver rd2 q2 ob2 =>
          have hts' : s.tasks =
              Task.deliver rd2 q2 ob2 :: (a ++ Task.flush :: b) := by
            rw [hts]
            rfl
          have hmemhead : Task.deliver rd2 q2 ob2 ∈ s.tasks := by
            rw [hts']
            exact List.mem_cons_self _ _
          have hB1 : RecBound r nr
              { s with tasks := a ++ Task.flush :: b } :=
            RecBound_tail r nr s _ _ hts' hB
          have hB2 : RecBound r nr (runDeliver env rd2 q2 ob2
              { s with tasks := a ++ Task.flush :: b }) :=
            RecBound_runDeliver env rd2 q2 ob2 _ hB1
              (fun hr => hB.1 rd2 q2 ob2 hmemhead hr)
          obtain ⟨newT, hT, _⟩ := runDeliver_tasks env rd2 q2 ob2
            { s with tasks := a ++ Task.flush :: b }
          have hshape : (runDeliver env rd2 q2 ob2
              { s with tasks := a ++ Task.flush :: b }).tasks =
              a ++ Task.flush :: (b ++ newT) := by
            rw [hT]
            show (a ++ Task.flush :: b) ++ newT = _
            simp
          obtain ⟨addQ, hQ⟩ := runDeliver_recordQueue_mono env rd2 q2 ob2 o
            { s with tasks := a ++ Task.flush :: b }
          obtain ⟨addN, hN⟩ := runDeliver_notifyList_mono env rd2 q2 ob2
            { s with tasks := a ++ Task.flush :: b }
          have hq2 : r ∈ (runDeliver env rd2 q2 ob2
              { s with tasks := a ++ Task.flush :: b }).recordQueue o := by
            rw [hQ]
            exact List.mem_append.2 (Or.inl hq)
          have hn2 : o ∈ (runDeliver env rd2 q2 ob2
              { s with tasks := a ++ Task.flush :: b }).notifyList := by
            rw [hN]
            exact List.mem_append.2 (Or.inl hn)
          have hnr2 : nr ≤ (runDeliver env rd2 q2 ob2
              { s with tasks := a ++ Task.flush :: b }).nextRound := by
            rw [runDeliver_nextRound]
            exact hnr
          obtain ⟨n, h1, h2⟩ := ih _ (b ++ newT) hshape hq2 hn2 hnr2 hB2
          refine ⟨n + 1, ?_, ?_⟩
          · rw [runTasks_succ, runTask_cons env s _ _ hts']
            exact h1
          · rw [runTasks_succ, runTask_cons env s _ _ hts']
            exact h2

/-- C2: a record `r` enqueued for observer `o` during a callback's own
invocation — so that, at the end of that delivery turn, `r` sits in `o`'s
queue, `o` is on the pending list, a flush wrapper is armed, no pending
delivery batch contains `r` and no past invocation delivered it — is
delivered to `o`'s callback after finitely many further scheduler turns,
in a round that had not yet started (`round ≥ nextRound`), and `r` is never
delivered by any round that was already executing. -/
theorem callback_enqueue_delivered_subsequent_round
    (env : Env) (o r : Nat) (s : NLState)
    (hq : r ∈ s.recordQueue o) (hn : o ∈ s.notifyList)
    (hF : Task.flush ∈ s.tasks)
    (hT : ∀ t ∈ s.tasks, taskHasRecord r t = false)
    (hI : ∀ v ∈ s.invocations, r ∉ v.batch) :
    ∃ n, (∃ v ∈ (runTasks env n s).invocations,
            v.observer = o ∧ r ∈ v.batch ∧ s.nextRound ≤ v.round) ∧
         ∀ v ∈ (runTasks env n s).invocations,
            r ∈ v.batch → s.nextRound ≤ v.round := by
  have hB : RecBound r s.nextRound s := by
    refine ⟨?_, ?_, le_refl _⟩
    · intro rd q ob hm hr
      have h := hT _ hm
      simp only [taskHasRecord, decide_eq_false_iff_not] at h
      exact absurd hr h
    · intro v hv hr
      exact absurd hr (hI v hv)
  obtain ⟨a, b, hab⟩ := List.append_of_mem hF
  exact flush_phase env o r s.nextRound a s b hab hq hn (le_refl _) hB

/-- Witness for C2: after observer `0`'s round-`0` callback enqueued the
brand-new record `7` for observer `1`, the hypotheses hold concretely and
the record is delivered to observer `1` in a round `≥ 1`. -/
theorem callback_enqueue_delivered_subsequent_round_witness :
    (7 ∈ sAfterCallbackEnqueue.recordQueue 1 ∧
     1 ∈ sAfterCallbackEnqueue.notifyList ∧
     Task.flush ∈ sAfterCallbackEnqueue.tasks ∧
     (∀ t ∈ sAfterCallbackEnqueue.tasks, taskHasRecord 7 t = false) ∧
     (∀ v ∈ sAfterCallbackEnqueue.invocations, 7 ∉ v.batch)) ∧
    ∃ n, (∃ v ∈ (runTasks envCallback01 n sAfterCallbackEnqueue).invocations,
            v.observer = 1 ∧ 7 ∈ v.batch ∧
              sAfterCallbackEnqueue.nextRound ≤ v.round) ∧
         ∀ v ∈ (runTasks envCallback01 n sAfterCallbackEnqueue).invocations,
            7 ∈ v.batch → sAfterCallbackEnqueue.nextRound ≤ v.round := by
  refine ⟨⟨by decide, by decide, by decide, by decide, by decide⟩, ?_⟩
  exact callback_enqueue_delivered_subsequent_round envCallback01 1 7
    sAfterCallbackEnqueue (by decide) (by decide) (by decide) (by decide)
    (by decide)

end NotifyList
